import Mathlib

/-!
Verification of the devspace configuration-resolution engine against its
specification.  The repository slice under verification contains the typed
configuration schema (`pkg/devspace/config/versions/latest/schema.go`) and the
variable-resolver interface; the generic document model, patch engine, merge
engine, profile resolver and variable resolver are modelled from the
specification (spec.md sections 3, 4.1-4.5), faithful to its words.
-/

namespace DevSpace

mutual

/-- Modelled from the spec: the generic Document node (spec 3, "Document
Node"): a tagged value, one of Scalar (string, number, boolean, null),
Sequence (ordered list of nodes) and Mapping (ordered collection of string
keys to nodes).  Mappings and sequences are given as a mutual inductive
family so that all engine operations are structurally recursive and
computable. -/
inductive Node where
  | str (s : String)
  | num (n : Int)
  | bool (b : Bool)
  | null
  | seq (xs : NodeList)
  | map (m : EntryList)

inductive NodeList where
  | nil
  | cons (hd : Node) (tl : NodeList)

inductive EntryList where
  | nil
  | cons (key : String) (value : Node) (tl : EntryList)

end

namespace EntryList

/-- Number of entries of a mapping. -/
def length : EntryList → Nat
  | .nil => 0
  | .cons _ _ t => t.length + 1

/-- Concatenation of two entry lists. -/
def append : EntryList → EntryList → EntryList
  | .nil, r => r
  | .cons k v t, r => .cons k v (append t r)

/-- First value stored under a key, if any. -/
def lookup : EntryList → String → Option Node
  | .nil, _ => none
  | .cons k v t, key => if k = key then some v else lookup t key

/-- Whether a key is present in the mapping. -/
def hasKey (m : EntryList) (key : String) : Bool :=
  (m.lookup key).isSome

end EntryList

namespace NodeList

/-- Length of a sequence. -/
def length : NodeList → Nat
  | .nil => 0
  | .cons _ t => t.length + 1

/-- Concatenation of two sequences. -/
def append : NodeList → NodeList → NodeList
  | .nil, r => r
  | .cons x t, r => .cons x (append t r)

/-- Element at a position, if the position is in range. -/
def get : NodeList → Nat → Option Node
  | .nil, _ => none
  | .cons x _, 0 => some x
  | .cons _ t, n + 1 => t.get n

/-- Drop the first `n` elements of a sequence. -/
def drop : Nat → NodeList → NodeList
  | 0, l => l
  | _ + 1, .nil => .nil
  | n + 1, .cons _ t => drop n t

end NodeList

@[simp] theorem EntryList.entries_length_nil : EntryList.length .nil = 0 := rfl

@[simp] theorem EntryList.entries_length_cons :
    EntryList.length (.cons k v t) = EntryList.length t + 1 := rfl

@[simp] theorem EntryList.entries_append_nil (r : EntryList) :
    EntryList.append .nil r = r := rfl

@[simp] theorem EntryList.entries_append_cons (k : String) (v : Node) (t r : EntryList) :
    EntryList.append (.cons k v t) r = .cons k v (EntryList.append t r) := rfl

@[simp] theorem EntryList.entries_lookup_nil (key : String) :
    EntryList.lookup .nil key = none := rfl

theorem EntryList.entries_lookup_cons (k : String) (v : Node) (t : EntryList) (key : String) :
    EntryList.lookup (.cons k v t) key =
      if k = key then some v else EntryList.lookup t key := rfl

@[simp] theorem NodeList.nodes_length_nil : NodeList.length .nil = 0 := rfl

@[simp] theorem NodeList.nodes_length_cons :
    NodeList.length (.cons x t) = NodeList.length t + 1 := rfl

@[simp] theorem NodeList.nodes_append_nil (r : NodeList) :
    NodeList.append .nil r = r := rfl

@[simp] theorem NodeList.nodes_append_cons (x : Node) (t r : NodeList) :
    NodeList.append (.cons x t) r = .cons x (NodeList.append t r) := rfl

/-- Modelled from the spec: a fragment of a scalar string as seen by the
placeholder scanner (spec 4.5): either a literal character or a delimited
placeholder token naming a variable. -/
inductive Seg where
  | litc (c : Char)
  | var (name : List Char)

mutual

/-- Modelled from the spec: scanner state outside a placeholder.  A scalar
string is cut into literal characters and `$\x7bNAME\x7d` placeholder
tokens (the delimiter syntax of the spec's examples, spec 8). -/
def scanLit : List Char → List Seg
  | [] => []
  | '$' :: '{' :: rest => scanVar [] rest
  | c :: rest => .litc c :: scanLit rest

/-- Modelled from the spec: scanner state inside a placeholder, accumulating
the variable name until the closing brace; an unterminated placeholder is
kept as literal text. -/
def scanVar (acc : List Char) : List Char → List Seg
  | [] => .litc '$' :: .litc '{' :: acc.map .litc
  | '}' :: rest => .var acc :: scanLit rest
  | c :: rest => scanVar (acc ++ [c]) rest

end

/-- Modelled from the spec: stringification of a resolved value when it is
concatenated into mixed content (spec 4.5, substitution semantics). -/
def stringify : Node → String
  | .str s => s
  | .num n => toString n
  | .bool true => "true"
  | .bool false => "false"
  | .null => "null"
  | .seq _ => ""
  | .map _ => ""

/-- Modelled from the spec: rendering of a scanned segment list where every
placeholder occurrence is replaced by the stringified resolved value;
an unresolvable name is left literal. -/
def renderChars (resolve : String → Option Node) : List Seg → List Char
  | [] => []
  | .litc c :: rest => c :: renderChars resolve rest
  | .var nm :: rest =>
      (match resolve (String.mk nm) with
        | some v => (stringify v).data
        | none => '$' :: '{' :: (nm ++ ['}'])) ++ renderChars resolve rest

/-- Modelled from the spec: substitution applied to an already scanned scalar
(spec 4.5): if the entire content is exactly one placeholder the leaf takes
the resolved value's native type, otherwise resolved values are stringified
and concatenated in place. -/
def substSegs (resolve : String → Option Node) (orig : String) : List Seg → Node
  | [.var nm] =>
      match resolve (String.mk nm) with
      | some v => v
      | none => .str orig
  | segs => .str (String.mk (renderChars resolve segs))

/-- Modelled from the spec: substitution on one scalar string leaf. -/
def substString (resolve : String → Option Node) (s : String) : Node :=
  substSegs resolve s (scanLit s.data)

theorem scanVar_closed (nm : List Char) :
    ∀ (acc rest : List Char), '}' ∉ nm →
      scanVar acc (nm ++ '}' :: rest) = .var (acc ++ nm) :: scanLit rest := by
  induction nm with
  | nil => intro acc rest _; simp [scanVar]
  | cons c cs ih =>
      intro acc rest h
      have hc : c ≠ '}' := fun hc => h (hc ▸ List.mem_cons_self c cs)
      have hcs : '}' ∉ cs := fun hm => h (List.mem_cons_of_mem c hm)
      rw [List.cons_append]
      rw [show scanVar acc (c :: (cs ++ '}' :: rest)) = scanVar (acc ++ [c]) (cs ++ '}' :: rest) from by
        rw [scanVar.eq_def]
        rcases hl : (c :: (cs ++ '}' :: rest)) with _ | ⟨c1, rest1⟩
        · simp at hl
        · simp only [List.cons.injEq] at hl
          obtain ⟨rfl, rfl⟩ := hl
          simp [hc]]
      rw [ih (acc ++ [c]) rest hcs, List.append_assoc]
      rfl

theorem scanLit_lit_run (pre : List Char) :
    ∀ (l : List Char), '$' ∉ pre →
      scanLit (pre ++ l) = pre.map .litc ++ scanLit l := by
  induction pre with
  | nil => intro l _; rfl
  | cons c cs ih =>
      intro l h
      have hc : c ≠ '$' := fun hc => h (hc ▸ List.mem_cons_self c cs)
      have hcs : '$' ∉ cs := fun hm => h (List.mem_cons_of_mem c hm)
      rw [List.cons_append]
      rw [show scanLit (c :: (cs ++ l)) = .litc c :: scanLit (cs ++ l) from by
        rw [scanLit.eq_def]
        rcases hcl : (cs ++ l) with _ | ⟨c1, rest1⟩ <;> simp [hc]]
      rw [ih l hcs]
      rfl

theorem renderChars_lit_run (resolve : String → Option Node) (pre : List Char) :
    ∀ segs, renderChars resolve (pre.map .litc ++ segs) =
      pre ++ renderChars resolve segs := by
  induction pre with
  | nil => intro segs; rfl
  | cons c cs ih => intro segs; simp [renderChars, ih]

theorem substSegs_default (resolve : String → Option Node) (orig : String) :
    ∀ segs, (∀ nm, segs ≠ [.var nm]) →
      substSegs resolve orig segs = .str (String.mk (renderChars resolve segs)) := by
  intro segs hne
  match segs with
  | [] => rfl
  | .litc c :: rest => rfl
  | .var nm :: [] => exact absurd rfl (hne nm)
  | .var nm :: x :: rest => rfl

/-- C8: a scalar whose entire content is exactly one placeholder is replaced
by the resolved value in its native type; a placeholder embedded in a larger
string is stringified and concatenated in place. -/
theorem subst_placeholder_semantics :
    (∀ (resolve : String → Option Node) (name : String) (v : Node),
        '}' ∉ name.data → resolve name = some v →
        substString resolve ("$\x7b" ++ name ++ "\x7d") = v)
    ∧
    (∀ (resolve : String → Option Node) (pre name suf : String) (v : Node),
        '}' ∉ name.data → '$' ∉ pre.data → '$' ∉ suf.data →
        (pre.data ≠ [] ∨ suf.data ≠ []) → resolve name = some v →
        substString resolve (pre ++ "$\x7b" ++ name ++ "\x7d" ++ suf) =
          .str (pre ++ stringify v ++ suf)) := by
  constructor
  · intro resolve name v hname hres
    unfold substString
    have hdata : ("$\x7b" ++ name ++ "\x7d").data = '$' :: '{' :: (name.data ++ '}' :: []) := by
      simp [String.data_append]
    rw [hdata]
    rw [show scanLit ('$' :: '{' :: (name.data ++ '}' :: [])) =
        scanVar [] (name.data ++ '}' :: []) from rfl]
    rw [scanVar_closed name.data [] [] hname]
    show substSegs resolve _ [.var name.data] = v
    have hmk : String.mk name.data = name := rfl
    simp [substSegs, hmk, hres]
  · intro resolve pre name suf v hname hpre hsuf hne hres
    unfold substString
    have hdata : (pre ++ "$\x7b" ++ name ++ "\x7d" ++ suf).data =
        pre.data ++ ('$' :: '{' :: (name.data ++ '}' :: suf.data)) := by
      simp [String.data_append]
    rw [hdata, scanLit_lit_run pre.data _ hpre]
    rw [show scanLit ('$' :: '{' :: (name.data ++ '}' :: suf.data)) =
        scanVar [] (name.data ++ '}' :: suf.data) from rfl]
    rw [scanVar_closed name.data [] suf.data hname]
    have hsufscan : scanLit suf.data = suf.data.map .litc := by
      have := scanLit_lit_run suf.data [] hsuf
      simpa [scanLit] using this
    rw [hsufscan]
    simp only [List.nil_append]
    have hmk : String.mk name.data = name := rfl
    have hdefault : ∀ nm,
        pre.data.map Seg.litc ++ (Seg.var name.data :: suf.data.map Seg.litc) ≠
          [Seg.var nm] := by
      intro nm hcontra
      rcases hp : pre.data with _ | ⟨c, cs⟩
      · rw [hp] at hcontra
        simp only [List.map_nil, List.nil_append, List.cons.injEq] at hcontra
        rcases hs : suf.data with _ | ⟨d, ds⟩
        · exact (hne.resolve_left (fun h => h hp)) hs
        · rw [hs] at hcontra
          simp at hcontra
      · rw [hp] at hcontra
        simp at hcontra
    rw [substSegs_default resolve _ _ hdefault]
    rw [renderChars_lit_run]
    have hvar : renderChars resolve (Seg.var name.data :: suf.data.map Seg.litc) =
        (stringify v).data ++ suf.data := by
      rw [renderChars]
      rw [hmk, hres]
      have := renderChars_lit_run resolve suf.data []
      simp only [List.append_nil] at this
      simp [this, renderChars]
    rw [hvar]
    show Node.str (String.mk (pre.data ++ ((stringify v).data ++ suf.data))) = _
    have hd : (pre ++ stringify v ++ suf).data =
        pre.data ++ ((stringify v).data ++ suf.data) := by
      simp [String.data_append]
    have : pre ++ stringify v ++ suf =
        String.mk (pre.data ++ ((stringify v).data ++ suf.data)) := by
      calc pre ++ stringify v ++ suf
          = String.mk ((pre ++ stringify v ++ suf).data) := rfl
        _ = String.mk (pre.data ++ ((stringify v).data ++ suf.data)) := by rw [hd]
    rw [this]

/-- PatchConfig describes a config patch and how it should be applied
(schema.go, lines 753-759); the Go `Value interface\x7b\x7d` field is an
optional document node, the empty `From`/`Path` strings stand for absent
fields. -/
structure PatchConfig where
  Operation : String
  Path : String
  Value : Option Node
  From : String

/-- Modelled from the spec: the patch failure report PatchError with the
offending operation, its path or from location and a reason (spec 4.2, 7). -/
structure PatchError where
  op : String
  path : String
  reason : String

/-- Characters of one slash-delimited path, cut at every slash; the current
segment is accumulated in reverse. -/
def splitSegs (cur : List Char) : List Char → List String
  | [] => [String.mk cur.reverse]
  | '/' :: rest => String.mk cur.reverse :: splitSegs [] rest
  | c :: rest => splitSegs (c :: cur) rest

/-- Modelled from the spec: slash-delimited location expressions are split
into segments (spec 4.1); empty segments produced by leading or doubled
slashes are ignored. -/
def splitPath (s : String) : List String :=
  (splitSegs [] s.data).filter (fun seg => seg ≠ "")

/-- Replace the value stored under an existing key, leaving the mapping
unchanged when the key is absent. -/
def EntryList.setKey : EntryList → String → Node → EntryList
  | .nil, _, _ => .nil
  | .cons k v t, key, nv =>
      if k = key then .cons k nv t else .cons k v (t.setKey key nv)

/-- Create or overwrite a mapping key (spec 4.2, `add` on mappings). -/
def EntryList.insertKey (m : EntryList) (key : String) (nv : Node) : EntryList :=
  if m.hasKey key then m.setKey key nv else m.append (.cons key nv .nil)

/-- Delete the entry stored under a key. -/
def EntryList.removeKey : EntryList → String → EntryList
  | .nil, _ => .nil
  | .cons k v t, key => if k = key then t else .cons k v (t.removeKey key)

/-- Replace the element at an existing sequence position. -/
def NodeList.setAt : NodeList → Nat → Node → NodeList
  | .nil, _, _ => .nil
  | .cons _ t, 0, nv => .cons nv t
  | .cons x t, n + 1, nv => .cons x (t.setAt n nv)

/-- Insert an element at a sequence position, shifting subsequent elements
right (spec 4.2, `add` on sequences). -/
def NodeList.insertAt : NodeList → Nat → Node → NodeList
  | l, 0, nv => .cons nv l
  | .nil, _ + 1, nv => .cons nv .nil
  | .cons x t, n + 1, nv => .cons x (t.insertAt n nv)

/-- Remove the element at a sequence position. -/
def NodeList.removeAt : NodeList → Nat → NodeList
  | .nil, _ => .nil
  | .cons _ t, 0 => t
  | .cons x t, n + 1 => .cons x (t.removeAt n)

/-- Modelled from the spec: `get(path)` of the document model (spec 4.1):
a segment that parses as a non-negative integer indexes a sequence. -/
def getPath : Node → List String → Option Node
  | n, [] => some n
  | .map m, s :: rest =>
      match m.lookup s with
      | some v => getPath v rest
      | none => none
  | .seq xs, s :: rest =>
      match s.toNat? with
      | some i =>
          match xs.get i with
          | some v => getPath v rest
          | none => none
      | none => none
  | _, _ :: _ => none

/-- Modelled from the spec: the `add` patch operation (spec 4.2): inserts the
value at the path; an integer index into a sequence shifts subsequent
elements right, the literal segment `-` appends; for mappings the key is
created or overwritten; intermediate mappings are created as required
(spec 4.1, `set`). -/
def addPath : Node → List String → Node → Option Node
  | _, [], v => some v
  | .map m, s :: rest, v =>
      match rest with
      | [] => some (.map (m.insertKey s v))
      | _ :: _ =>
          match addPath ((m.lookup s).getD (.map .nil)) rest v with
          | some c2 => some (.map (m.insertKey s c2))
          | none => none
  | .seq xs, s :: rest, v =>
      match rest with
      | [] =>
          if s = "-" then some (.seq (xs.append (.cons v .nil)))
          else
            match s.toNat? with
            | some i => if i ≤ xs.length then some (.seq (xs.insertAt i v)) else none
            | none => none
      | _ :: _ =>
          match s.toNat? with
          | some i =>
              match xs.get i with
              | some c =>
                  match addPath c rest v with
                  | some c2 => some (.seq (xs.setAt i c2))
                  | none => none
              | none => none
          | none => none
  | _, _ :: _, _ => none

/-- Modelled from the spec: the `remove` patch operation (spec 4.2): deletes
the node at the path and fails if it is absent. -/
def removePath : Node → List String → Option Node
  | _, [] => none
  | .map m, s :: rest =>
      match rest with
      | [] => if m.hasKey s then some (.map (m.removeKey s)) else none
      | _ :: _ =>
          match m.lookup s with
          | some c =>
              match removePath c rest with
              | some c2 => some (.map (m.setKey s c2))
              | none => none
          | none => none
  | .seq xs, s :: rest =>
      match s.toNat? with
      | some i =>
          match rest with
          | [] => if i < xs.length then some (.seq (xs.removeAt i)) else none
          | _ :: _ =>
              match xs.get i with
              | some c =>
                  match removePath c rest with
                  | some c2 => some (.seq (xs.setAt i c2))
                  | none => none
              | none => none
      | none => none
  | _, _ :: _ => none

/-- Modelled from the spec: the `replace` patch operation (spec 4.2):
requires an existing node at the path and substitutes the value. -/
def replacePath : Node → List String → Node → Option Node
  | _, [], v => some v
  | .map m, s :: rest, v =>
      match m.lookup s with
      | some c =>
          match rest with
          | [] => some (.map (m.setKey s v))
          | _ :: _ =>
              match replacePath c rest v with
              | some c2 => some (.map (m.setKey s c2))
              | none => none
      | none => none
  | .seq xs, s :: rest, v =>
      match s.toNat? with
      | some i =>
          match xs.get i with
          | some c =>
              match rest with
              | [] => some (.seq (xs.setAt i v))
              | _ :: _ =>
                  match replacePath c rest v with
                  | some c2 => some (.seq (xs.setAt i c2))
                  | none => none
          | none => none
      | none => none
  | _, _ :: _, _ => none

/-- Modelled from the spec: execution of one patch operation (spec 4.2);
`move` is a remove at `from` followed by an add at `path` with the removed
value, `copy` is an add at `path` with the value read at `from`, and any
failure is reported as a PatchError. -/
def applyOp (doc : Node) (p : PatchConfig) : Except PatchError Node :=
  match p.Operation with
  | "add" =>
      match p.Value with
      | some v =>
          match addPath doc (splitPath p.Path) v with
          | some d => .ok d
          | none => .error ⟨p.Operation, p.Path, "path not applicable"⟩
      | none => .error ⟨p.Operation, p.Path, "missing value"⟩
  | "remove" =>
      match removePath doc (splitPath p.Path) with
      | some d => .ok d
      | none => .error ⟨p.Operation, p.Path, "path absent"⟩
  | "replace" =>
      match p.Value with
      | some v =>
          match replacePath doc (splitPath p.Path) v with
          | some d => .ok d
          | none => .error ⟨p.Operation, p.Path, "path absent"⟩
      | none => .error ⟨p.Operation, p.Path, "missing value"⟩
  | "move" =>
      match getPath doc (splitPath p.From) with
      | some v =>
          match removePath doc (splitPath p.From) with
          | some d1 =>
              match addPath d1 (splitPath p.Path) v with
              | some d2 => .ok d2
              | none => .error ⟨p.Operation, p.Path, "path not applicable"⟩
          | none => .error ⟨p.Operation, p.From, "from absent"⟩
      | none => .error ⟨p.Operation, p.From, "from absent"⟩
  | "copy" =>
      match getPath doc (splitPath p.From) with
      | some v =>
          match addPath doc (splitPath p.Path) v with
          | some d => .ok d
          | none => .error ⟨p.Operation, p.Path, "path not applicable"⟩
      | none => .error ⟨p.Operation, p.From, "from absent"⟩
  | _ => .error ⟨p.Operation, p.Path, "invalid operation"⟩

/-- Modelled from the spec: `apply(doc, patches)` of the Patch Engine
(spec 4.2): operations execute strictly in list order against a running
document, and the first failure aborts the whole list with a PatchError. -/
def apply : Node → List PatchConfig → Except PatchError Node
  | doc, [] => .ok doc
  | doc, p :: rest =>
      match applyOp doc p with
      | .ok d => apply d rest
      | .error e => .error e

/-- C1: `apply` is all-or-nothing and strictly sequential: it agrees with the
monadic fold of single operations over the Except monad (an error anywhere
yields a PatchError and no document at all, the pre-patch document value
being untouched by construction), it splits sequentially over list
concatenation, and a singleton list is exactly one operation applied to the
running document. -/
theorem apply_all_or_nothing :
    (∀ (doc : Node) (ops : List PatchConfig),
        apply doc ops = ops.foldlM applyOp doc)
    ∧
    (∀ (doc : Node) (l r : List PatchConfig),
        apply doc (l ++ r) = (apply doc l).bind (fun d => apply d r))
    ∧
    (∀ (doc : Node) (p : PatchConfig), apply doc [p] = applyOp doc p) := by
  refine ⟨?_, ?_, ?_⟩
  · intro doc ops
    induction ops generalizing doc with
    | nil => rfl
    | cons p rest ih =>
        rw [apply]
        rw [show List.foldlM applyOp doc (p :: rest) =
            Except.bind (applyOp doc p) (fun d => List.foldlM applyOp d rest) from rfl]
        cases h : applyOp doc p with
        | ok d => exact ih d
        | error e => rfl
  · intro doc l r
    induction l generalizing doc with
    | nil => rfl
    | cons p rest ih =>
        rw [List.cons_append, apply, apply]
        cases h : applyOp doc p with
        | ok d => simp [ih d, Except.bind]
        | error e => simp [Except.bind]
  · intro doc p
    rw [apply]
    cases h : applyOp doc p with
    | ok d => rfl
    | error e => rfl

/-- Whether a node is a mapping. -/
def Node.isMap : Node → Bool
  | .map _ => true
  | _ => false

/-- Key lookup on a node that is a mapping. -/
def Node.lookupKey : Node → String → Option Node
  | .map m, k => m.lookup k
  | _, _ => none

/-- Entries of the second mapping whose key is absent from the first. -/
def EntryList.filterNotIn (b : EntryList) : EntryList → EntryList
  | .nil => .nil
  | .cons k v t => if b.hasKey k then filterNotIn b t else .cons k v (filterNotIn b t)

mutual

/-- Modelled from the spec: the `merge` strategy (spec 4.3): a recursive deep
merge where mapping keys present in both sides merge recursively, a key
present in only one side is kept, and the override value wins outright
whenever at least one side is not a mapping. -/
def mergeNodes : Node → Node → Node
  | .map b, .map o => .map ((mergeEntries b o).append (EntryList.filterNotIn b o))
  | _, o => o

/-- Modelled from the spec: the per-entry part of the `merge` strategy over
the base mapping's entries, in base order. -/
def mergeEntries : EntryList → EntryList → EntryList
  | .nil, _ => .nil
  | .cons k v t, o =>
      .cons k
        (match o.lookup k with
          | some ov => mergeNodes v ov
          | none => v)
        (mergeEntries t o)

end

theorem EntryList.lookup_append :
    ∀ (l r : EntryList) (k : String),
      (l.append r).lookup k =
        match l.lookup k with
        | some v => some v
        | none => r.lookup k
  | .nil, r, k => rfl
  | .cons k1 v t, r, k => by
      rw [entries_append_cons, entries_lookup_cons, entries_lookup_cons]
      by_cases h : k1 = k
      · simp [h]
      · simp [h, lookup_append t r k]

theorem mergeEntries_lookup :
    ∀ (b o : EntryList) (k : String),
      (mergeEntries b o).lookup k =
        (b.lookup k).map
          (fun v =>
            match o.lookup k with
            | some ov => mergeNodes v ov
            | none => v)
  | .nil, o, k => rfl
  | .cons k1 v t, o, k => by
      rw [mergeEntries, EntryList.entries_lookup_cons, EntryList.entries_lookup_cons]
      by_cases h : k1 = k
      · subst h; simp
      · simp [h, mergeEntries_lookup t o k]

theorem EntryList.filterNotIn_lookup :
    ∀ (b o : EntryList) (k : String),
      (EntryList.filterNotIn b o).lookup k =
        if b.hasKey k then none else o.lookup k
  | b, .nil, k => by cases h : b.hasKey k <;> simp [filterNotIn, h]
  | b, .cons k1 v t, k => by
      rw [filterNotIn]
      by_cases h1 : b.hasKey k1
      · rw [if_pos h1, filterNotIn_lookup b t k, entries_lookup_cons]
        by_cases hk : k1 = k
        · subst hk; simp [h1]
        · simp [hk]
      · rw [if_neg h1, entries_lookup_cons, entries_lookup_cons]
        by_cases hk : k1 = k
        · subst hk; simp [h1]
        · simp [hk, filterNotIn_lookup b t k]

/-- C4: the `merge` strategy deep-merges keys present in both mappings
recursively, keeps keys present in only one side, lets the override win
outright when at least one side of a pair is not a mapping, and on
base a:(x:1, y:2) with override a:(y:3, z:4) yields a:(x:1, y:3, z:4). -/
theorem merge_strategy_semantics :
    (∀ (b o : EntryList) (k : String),
        (mergeNodes (.map b) (.map o)).lookupKey k =
          match b.lookup k, o.lookup k with
          | some bv, some ov => some (mergeNodes bv ov)
          | some bv, none => some bv
          | none, some ov => some ov
          | none, none => none)
    ∧
    (∀ (b o : Node), (b.isMap = false ∨ o.isMap = false) → mergeNodes b o = o)
    ∧
    mergeNodes
        (.map (.cons "a" (.map (.cons "x" (.num 1) (.cons "y" (.num 2) .nil))) .nil))
        (.map (.cons "a" (.map (.cons "y" (.num 3) (.cons "z" (.num 4) .nil))) .nil)) =
      .map (.cons "a"
        (.map (.cons "x" (.num 1) (.cons "y" (.num 3) (.cons "z" (.num 4) .nil)))) .nil) := by
  refine ⟨?_, ?_, ?_⟩
  · intro b o k
    rw [show mergeNodes (.map b) (.map o) =
        .map ((mergeEntries b o).append (EntryList.filterNotIn b o)) from rfl]
    rw [Node.lookupKey, EntryList.lookup_append, mergeEntries_lookup,
      EntryList.filterNotIn_lookup]
    cases hb : b.lookup k with
    | some bv =>
        cases ho : o.lookup k with
        | some ov => simp
        | none => simp
    | none =>
        have hbk : b.hasKey k = false := by
          rw [EntryList.hasKey, hb]; rfl
        cases ho : o.lookup k with
        | some ov => simp [hbk]
        | none => simp [hbk]
  · intro b o h
    cases b <;> cases o <;> simp [Node.isMap] at h ⊢ <;> rfl
  · rfl

mutual

/-- Structural boolean equality of two nodes. -/
def nodeEq : Node → Node → Bool
  | .str a, .str b => a = b
  | .num a, .num b => a = b
  | .bool a, .bool b => a = b
  | .null, .null => true
  | .seq a, .seq b => nodeListEq a b
  | .map a, .map b => entryListEq a b
  | _, _ => false

/-- Structural boolean equality of two sequences. -/
def nodeListEq : NodeList → NodeList → Bool
  | .nil, .nil => true
  | .cons a t1, .cons b t2 => nodeEq a b && nodeListEq t1 t2
  | _, _ => false

/-- Structural boolean equality of two entry lists. -/
def entryListEq : EntryList → EntryList → Bool
  | .nil, .nil => true
  | .cons k1 v1 t1, .cons k2 v2 t2 => k1 = k2 && nodeEq v1 v2 && entryListEq t1 t2
  | _, _ => false

end

/-- Modelled from the spec: whether two sequence elements carry an equal
merge-key value (spec 4.3, strategicMerge); elements lacking the key never
match. -/
def keyMatches (mk : String) (b o : Node) : Bool :=
  match b.lookupKey mk, o.lookupKey mk with
  | some x, some y => nodeEq x y
  | _, _ => false

/-- First override element with a merge-key value equal to the base
element's, if any. -/
def NodeList.findMatch (mk : String) (b : Node) : NodeList → Option Node
  | .nil => none
  | .cons o t => if keyMatches mk b o then some o else t.findMatch mk b

/-- Whether some base element matches the given override element on the
merge key. -/
def NodeList.hasMatch (mk : String) (bs : NodeList) (o : Node) : Bool :=
  match bs with
  | .nil => false
  | .cons b t => keyMatches mk b o || hasMatch mk t o

/-- Override elements matched by no base element, in their given order. -/
def NodeList.filterUnmatched (mk : String) (bs : NodeList) : NodeList → NodeList
  | .nil => .nil
  | .cons o t =>
      if NodeList.hasMatch mk bs o then filterUnmatched mk bs t
      else .cons o (filterUnmatched mk bs t)

mutual

/-- Modelled from the spec: the `strategicMerge` strategy (spec 4.3): like
`merge`, except that two sequences living under a field that carries a
per-context merge key (supplied here as `mk?`, the key of the field the
pair lives under as reported by `keyOf`) are merged element-wise by
merge-key value; any other disagreeing pair behaves as under `merge`. -/
def strategicNodes (keyOf : String → Option String) (mk? : Option String) :
    Node → Node → Node
  | .seq bs, .seq os =>
      match mk? with
      | some mk =>
          .seq ((stratSeqGo keyOf mk os bs).append (NodeList.filterUnmatched mk bs os))
      | none => .seq os
  | .map b, .map o => .map ((stratEntries keyOf b o).append (EntryList.filterNotIn b o))
  | _, o => o

/-- Modelled from the spec: the per-entry part of `strategicMerge` over the
base mapping's entries; the per-context merge key of each field is looked
up with `keyOf` and passed down. -/
def stratEntries (keyOf : String → Option String) : EntryList → EntryList → EntryList
  | .nil, _ => .nil
  | .cons k v t, o =>
      .cons k
        (match o.lookup k with
          | some ov => strategicNodes keyOf (keyOf k) v ov
          | none => v)
        (stratEntries keyOf t o)

/-- Modelled from the spec: the in-place part of a merge-keyed sequence
merge: each base element is merged recursively with its override match when
one exists and preserved in its original position otherwise. -/
def stratSeqGo (keyOf : String → Option String) (mk : String) (os : NodeList) :
    NodeList → NodeList
  | .nil => .nil
  | .cons b t =>
      .cons
        (match os.findMatch mk b with
          | some o => strategicNodes keyOf none b o
          | none => b)
        (stratSeqGo keyOf mk os t)

end

/-- Modelled from the spec: a merge-keyed sequence merge in full: base
elements merged or preserved in place, then the unmatched override elements
appended at the end in their given order. -/
def stratSeq (keyOf : String → Option String) (mk : String) (bs os : NodeList) : NodeList :=
  (stratSeqGo keyOf mk os bs).append (NodeList.filterUnmatched mk bs os)

/-- Modelled from the spec: `strategicMerge` applied to two whole documents;
at the top level no merge key is in play. -/
def strategicMerge (keyOf : String → Option String) (b o : Node) : Node :=
  strategicNodes keyOf none b o

theorem NodeList.get_some_lt :
    ∀ (l : NodeList) (i : Nat) (b : Node), l.get i = some b → i < l.length
  | .nil, i, b, h => by simp [get] at h
  | .cons x t, 0, b, _ => Nat.succ_pos _
  | .cons x t, i + 1, b, h =>
      Nat.succ_lt_succ (get_some_lt t i b h)

theorem NodeList.get_append_left :
    ∀ (l r : NodeList) (i : Nat), i < l.length → (l.append r).get i = l.get i
  | .nil, r, i, h => absurd h (by simp)
  | .cons x t, r, 0, _ => rfl
  | .cons x t, r, i + 1, h =>
      get_append_left t r i (Nat.lt_of_succ_lt_succ h)

theorem NodeList.drop_append :
    ∀ (l r : NodeList), (l.append r).drop l.length = r
  | .nil, r => rfl
  | .cons x t, r => drop_append t r

theorem stratSeqGo_length :
    ∀ (keyOf : String → Option String) (mk : String) (os bs : NodeList),
      (stratSeqGo keyOf mk os bs).length = bs.length
  | _, _, _, .nil => rfl
  | keyOf, mk, os, .cons b t => by
      rw [stratSeqGo, NodeList.nodes_length_cons, NodeList.nodes_length_cons,
        stratSeqGo_length keyOf mk os t]

theorem stratSeqGo_get :
    ∀ (keyOf : String → Option String) (mk : String) (os bs : NodeList)
      (i : Nat) (b : Node),
      bs.get i = some b →
      (stratSeqGo keyOf mk os bs).get i =
        some
          (match os.findMatch mk b with
            | some o => strategicNodes keyOf none b o
            | none => b)
  | keyOf, mk, os, .nil, i, b, h => by simp [NodeList.get] at h
  | keyOf, mk, os, .cons x t, 0, b, h => by
      have hx : x = b := by
        simpa [NodeList.get] using h
      subst hx
      rfl
  | keyOf, mk, os, .cons x t, i + 1, b, h =>
      stratSeqGo_get keyOf mk os t i b h

/-- C5: a merge-keyed sequence merge merges base elements sharing a
merge-key value with their override match recursively in place of the base
position, preserves unmatched base elements in their original position,
appends override-only elements at the end in their given order, and on
deployment lists keyed by name merges base (name:app, namespace:default)
with override (name:app, helm:...) into one entry while appending an
override entry with a new name. -/
theorem strategic_merge_semantics :
    (∀ (keyOf : String → Option String) (mk : String) (bs os : NodeList)
        (i : Nat) (b : Node),
        bs.get i = some b →
        (stratSeq keyOf mk bs os).get i =
          some
            (match os.findMatch mk b with
              | some o => strategicNodes keyOf none b o
              | none => b))
    ∧
    (∀ (keyOf : String → Option String) (mk : String) (bs os : NodeList),
        (stratSeq keyOf mk bs os).drop bs.length = NodeList.filterUnmatched mk bs os)
    ∧
    strategicMerge (fun f => if f = "deployments" then some "name" else none)
        (.map (.cons "deployments"
          (.seq (.cons
            (.map (.cons "name" (.str "app") (.cons "namespace" (.str "default") .nil)))
            .nil)) .nil))
        (.map (.cons "deployments"
          (.seq (.cons
            (.map (.cons "name" (.str "app")
              (.cons "helm" (.map (.cons "chart" (.str "./chart") .nil)) .nil)))
            (.cons (.map (.cons "name" (.str "other") .nil)) .nil))) .nil)) =
      .map (.cons "deployments"
        (.seq (.cons
          (.map (.cons "name" (.str "app")
            (.cons "namespace" (.str "default")
              (.cons "helm" (.map (.cons "chart" (.str "./chart") .nil)) .nil))))
          (.cons (.map (.cons "name" (.str "other") .nil)) .nil))) .nil) := by
  refine ⟨?_, ?_, ?_⟩
  · intro keyOf mk bs os i b h
    rw [stratSeq]
    rw [NodeList.get_append_left _ _ i
      (by rw [stratSeqGo_length]; exact NodeList.get_some_lt bs i b h)]
    exact stratSeqGo_get keyOf mk os bs i b h
  · intro keyOf mk bs os
    rw [stratSeq]
    rw [show bs.length = (stratSeqGo keyOf mk os bs).length from
      (stratSeqGo_length keyOf mk os bs).symm]
    exact NodeList.drop_append _ _
  · rfl

/-- Modelled from the spec: the `replace` per-entry behaviour (spec 4.3):
for each base key present in the override the subtree is discarded entirely
and replaced by the override's subtree verbatim. -/
def EntryList.replaceEntries : EntryList → EntryList → EntryList
  | .nil, _ => .nil
  | .cons k v t, o => .cons k ((o.lookup k).getD v) (replaceEntries t o)

/-- Modelled from the spec: the `replace` strategy (spec 4.3): top-level
keys present in the override replace the base subtree wholesale, keys
absent from the override are left untouched. -/
def replaceNodes : Node → Node → Node
  | .map b, .map o => .map ((EntryList.replaceEntries b o).append (EntryList.filterNotIn b o))
  | _, o => o

theorem EntryList.replaceEntries_lookup :
    ∀ (b o : EntryList) (k : String),
      (EntryList.replaceEntries b o).lookup k =
        (b.lookup k).map (fun v => (o.lookup k).getD v)
  | .nil, o, k => rfl
  | .cons k1 v t, o, k => by
      rw [replaceEntries, entries_lookup_cons, entries_lookup_cons]
      by_cases h : k1 = k
      · subst h; simp
      · simp [h, replaceEntries_lookup t o k]

/-- Modelled from the spec: a profile's modification block as it appears in
the profile's declaration text (spec 3, "Profile"): one of `replace`,
`merge`, `strategicMerge` or `patches`; a declaration is an ordered list of
such blocks. -/
inductive ProfileBlock where
  | replace (v : Node)
  | merge (v : Node)
  | strategicMerge (v : Node)
  | patches (ps : List PatchConfig)

/-- Payload of a `replace` block. -/
def replaceBlock : ProfileBlock → Option Node
  | .replace v => some v
  | _ => none

/-- Payload of a `merge` block. -/
def mergeBlock : ProfileBlock → Option Node
  | .merge v => some v
  | _ => none

/-- Payload of a `strategicMerge` block. -/
def strategicBlock : ProfileBlock → Option Node
  | .strategicMerge v => some v
  | _ => none

/-- Payload of a `patches` block. -/
def patchBlock : ProfileBlock → Option (List PatchConfig)
  | .patches ps => some ps
  | _ => none

/-- First block of a given kind in a declaration, by position. -/
def firstBlock {α : Type} (f : ProfileBlock → Option α) (decl : List ProfileBlock) :
    Option α :=
  (decl.filterMap f).head?

/-- Modelled from the spec: stage application of a resolved profile
(spec 4.4 step 3): apply to the working base, in this fixed order regardless
of declaration order, `replace`, then `merge`, then `strategicMerge`, then
`patches` via the Patch Engine in their declared order. -/
def resolveStages (keyOf : String → Option String) (base : Node)
    (decl : List ProfileBlock) : Except PatchError Node :=
  let b1 :=
    match firstBlock replaceBlock decl with
    | some r => replaceNodes base r
    | none => base
  let b2 :=
    match firstBlock mergeBlock decl with
    | some m => mergeNodes b1 m
    | none => b1
  let b3 :=
    match firstBlock strategicBlock decl with
    | some sm => strategicMerge keyOf b2 sm
    | none => b2
  apply b3 ((firstBlock patchBlock decl).getD [])

theorem firstBlock_perm {α : Type} (f : ProfileBlock → Option α)
    {d1 d2 : List ProfileBlock} (hp : d1.Perm d2)
    (hle : (d1.filterMap f).length ≤ 1) :
    firstBlock f d1 = firstBlock f d2 := by
  have hpf : (d1.filterMap f).Perm (d2.filterMap f) := hp.filterMap f
  rw [firstBlock, firstBlock]
  cases hm : d1.filterMap f with
  | nil =>
      rw [hm] at hpf
      rw [hpf.symm.eq_nil]
  | cons a t =>
      cases t with
      | nil =>
          rw [hm] at hpf
          rw [List.perm_singleton.mp hpf.symm]
      | cons b t2 =>
          rw [hm] at hle
          simp at hle

/-- C2: resolving a profile applies its modification blocks in the fixed
order replace, merge, strategicMerge, patches: the result of stage
application is invariant under any permutation of the declaration order of
the blocks, provided each block kind is declared at most once. -/
theorem resolveStages_decl_order_irrelevant
    (keyOf : String → Option String) (base : Node)
    (d1 d2 : List ProfileBlock) (hp : d1.Perm d2)
    (hr : (d1.filterMap replaceBlock).length ≤ 1)
    (hm : (d1.filterMap mergeBlock).length ≤ 1)
    (hs : (d1.filterMap strategicBlock).length ≤ 1)
    (hpa : (d1.filterMap patchBlock).length ≤ 1) :
    resolveStages keyOf base d1 = resolveStages keyOf base d2 := by
  rw [resolveStages, resolveStages,
    firstBlock_perm replaceBlock hp hr,
    firstBlock_perm mergeBlock hp hm,
    firstBlock_perm strategicBlock hp hs,
    firstBlock_perm patchBlock hp hpa]

/-- C6: the merge engine is total and conflict-free: with the `replace`
strategy every top-level key present in the override wins verbatim and keys
absent from the override are untouched; with `merge` and `strategicMerge`
the override wins outright at every pair where at least one side is not a
mapping; and a profile declaration with no patch operations always resolves
to a document, never to an error. -/
theorem merge_total_conflict_free :
    (∀ (b o : EntryList) (k : String) (ov : Node),
        o.lookup k = some ov →
        (replaceNodes (.map b) (.map o)).lookupKey k = some ov)
    ∧
    (∀ (b o : EntryList) (k : String),
        o.lookup k = none →
        (replaceNodes (.map b) (.map o)).lookupKey k = b.lookup k)
    ∧
    (∀ (b o : Node), (b.isMap = false ∨ o.isMap = false) → mergeNodes b o = o)
    ∧
    (∀ (keyOf : String → Option String) (b o : Node),
        (b.isMap = false ∨ o.isMap = false) → strategicMerge keyOf b o = o)
    ∧
    (∀ (keyOf : String → Option String) (base : Node) (decl : List ProfileBlock),
        (firstBlock patchBlock decl).getD [] = [] →
        ∃ d, resolveStages keyOf base decl = .ok d) := by
  refine ⟨?_, ?_, ?_, ?_, ?_⟩
  · intro b o k ov ho
    rw [show replaceNodes (.map b) (.map o) =
        .map ((EntryList.replaceEntries b o).append (EntryList.filterNotIn b o)) from rfl]
    rw [Node.lookupKey, EntryList.lookup_append, EntryList.replaceEntries_lookup,
      EntryList.filterNotIn_lookup, ho]
    cases hb : b.lookup k with
    | some bv => simp
    | none =>
        have hbk : b.hasKey k = false := by
          rw [EntryList.hasKey, hb]; rfl
        simp [hbk]
  · intro b o k ho
    rw [show replaceNodes (.map b) (.map o) =
        .map ((EntryList.replaceEntries b o).append (EntryList.filterNotIn b o)) from rfl]
    rw [Node.lookupKey, EntryList.lookup_append, EntryList.replaceEntries_lookup,
      EntryList.filterNotIn_lookup, ho]
    cases hb : b.lookup k with
    | some bv => simp
    | none =>
        have hbk : b.hasKey k = false := by
          rw [EntryList.hasKey, hb]; rfl
        simp [hbk]
  · intro b o h
    cases b <;> cases o <;> simp [Node.isMap] at h ⊢ <;> rfl
  · intro keyOf b o h
    cases b <;> cases o <;> simp [Node.isMap] at h ⊢ <;> rfl
  · intro keyOf base decl h
    rw [resolveStages, h]
    exact ⟨_, rfl⟩

/-- Per-context merge keys of the strategic merge, read off the
`patchStrategy:"merge" patchMergeKey:...` struct tags of the configuration
schema (schema.go lines 34-40 and 499): deployment, dependency, command and
variable lists are keyed by `name`, sync configurations by `localSubPath`. -/
def profileKeyOf : String → Option String
  | "deployments" => some "name"
  | "dependencies" => some "name"
  | "commands" => some "name"
  | "vars" => some "name"
  | "sync" => some "localSubPath"
  | _ => none

/-- Modelled from the spec: a named profile as the Profile Resolver sees it
(spec 3, "Profile"): a unique name, an ordered parent list of optional
external source identity and profile name, and the declaration-ordered
modification blocks. -/
structure ProfileDecl where
  name : String
  parents : List (Option String × String)
  blocks : List ProfileBlock

/-- Modelled from the spec: a configuration document together with its
profile list, the unit on which the Profile Resolver operates (spec 4.4). -/
structure CfgDoc where
  root : Node
  profiles : List ProfileDecl

/-- Modelled from the spec: the error kinds of profile resolution
(spec 7). -/
inductive ResolveError where
  | ProfileNotFound (name : String)
  | CyclicProfileError (src : Option String) (name : String)
  | SourceLoadError (src : String)
  | PatchFailed (e : PatchError)

/-- Configuration document registered in the external Source Loader under a
source identity. -/
def lookupCfg : List (String × CfgDoc) → String → Option CfgDoc
  | [], _ => none
  | (s, c) :: t, key => if s = key then some c else lookupCfg t key

/-- Document designated by a source identity: the root document for `none`,
a loader-provided document otherwise. -/
def docOf (root : CfgDoc) (loader : List (String × CfgDoc)) :
    Option String → Option CfgDoc
  | none => some root
  | some s => lookupCfg loader s

/-- Profile with a given name in a profile list. -/
def findProfile : List ProfileDecl → String → Option ProfileDecl
  | [], _ => none
  | p :: t, n => if p.name = n then some p else findProfile t n

/-- Source/profile-name pairs contributed by one document. -/
def pairsOf (src : Option String) (ps : List ProfileDecl) :
    List (Option String × String) :=
  ps.map (fun p => (src, p.name))

/-- Source/profile-name pairs contributed by all loader documents. -/
def loaderPairs : List (String × CfgDoc) → List (Option String × String)
  | [] => []
  | (s, c) :: t => pairsOf (some s) c.profiles ++ loaderPairs t

/-- Every source/profile-name pair of the root document and the loader
documents; the finite universe the cycle guard draws from. -/
def allPairs (root : CfgDoc) (loader : List (String × CfgDoc)) :
    List (Option String × String) :=
  pairsOf none root.profiles ++ loaderPairs loader

/-- Boolean membership of a source/profile-name pair in the cycle-guard
stack. -/
def memPair (p : Option String × String) : List (Option String × String) → Bool
  | [] => false
  | q :: t => if p = q then true else memPair p t

theorem memPair_iff_mem (p : Option String × String) :
    ∀ l, memPair p l = true ↔ p ∈ l := by
  intro l
  induction l with
  | nil => simp [memPair]
  | cons q t ih =>
      rw [memPair]
      by_cases h : p = q
      · simp [h]
      · simp [h, ih]

/-- Number of universe pairs not yet on the cycle-guard stack; the
termination measure of profile resolution. -/
def guardMeasure (root : CfgDoc) (loader : List (String × CfgDoc))
    (stack : List (Option String × String)) : Nat :=
  ((allPairs root loader).filter (fun pr => !(memPair pr stack))).length

theorem length_filter_mono {α : Type} (f g : α → Bool)
    (hfg : ∀ x, f x = true → g x = true) :
    ∀ l : List α, (l.filter f).length ≤ (l.filter g).length := by
  intro l
  induction l with
  | nil => simp
  | cons a t ih =>
      rw [List.filter_cons, List.filter_cons]
      cases hf : f a with
      | true => simp [hfg a hf, Nat.succ_le_succ ih]
      | false =>
          cases hg : g a with
          | true => simp; exact Nat.le_succ_of_le ih
          | false => simpa using ih

theorem length_filter_strict {α : Type} (f g : α → Bool)
    (hfg : ∀ x, f x = true → g x = true) (p : α)
    (hg : g p = true) (hf : f p = false) :
    ∀ l : List α, p ∈ l → (l.filter f).length < (l.filter g).length := by
  intro l
  induction l with
  | nil => intro h; simp at h
  | cons a t ih =>
      intro hmem
      rw [List.filter_cons, List.filter_cons]
      by_cases ha : a = p
      · subst ha
        rw [hf, hg]
        simpa using Nat.lt_succ_of_le (length_filter_mono f g hfg t)
      · have hmt : p ∈ t := by
          cases hmem with
          | head => exact absurd rfl ha
          | tail _ h => exact h
        cases hfa : f a with
        | true =>
            rw [hfg a hfa]
            simpa using Nat.succ_lt_succ (ih hmt)
        | false =>
            cases hga : g a with
            | true => simpa using Nat.lt_succ_of_lt (ih hmt)
            | false => simpa using ih hmt

theorem guardMeasure_push_lt (root : CfgDoc) (loader : List (String × CfgDoc))
    (stack : List (Option String × String)) (pr : Option String × String)
    (hmem : pr ∈ allPairs root loader) (hst : memPair pr stack = false) :
    guardMeasure root loader (pr :: stack) < guardMeasure root loader stack := by
  apply length_filter_strict _ _ _ pr _ _ _ hmem
  · intro x hx
    simp only [Bool.not_eq_true'] at hx ⊢
    rw [memPair] at hx
    by_cases h : x = pr
    · simp [h] at hx
    · simpa [h] using hx
  · simpa using hst
  · simp [memPair]

theorem findProfile_pair_mem (src : Option String) :
    ∀ (ps : List ProfileDecl) (n : String) (p : ProfileDecl),
      findProfile ps n = some p → (src, n) ∈ pairsOf src ps
  | [], n, p, h => by simp [findProfile] at h
  | q :: t, n, p, h => by
      rw [findProfile] at h
      by_cases hq : q.name = n
      · rw [pairsOf, List.map_cons, hq]
        exact List.mem_cons_self _ _
      · rw [if_neg hq] at h
        rw [pairsOf, List.map_cons]
        exact List.mem_cons_of_mem _ (findProfile_pair_mem src t n p h)

theorem lookupCfg_pairs_mem :
    ∀ (loader : List (String × CfgDoc)) (s : String) (cfg : CfgDoc),
      lookupCfg loader s = some cfg →
      ∀ pr ∈ pairsOf (some s) cfg.profiles, pr ∈ loaderPairs loader
  | [], s, cfg, h => by simp [lookupCfg] at h
  | (s1, c1) :: t, s, cfg, h => by
      rw [lookupCfg] at h
      by_cases hs : s1 = s
      · rw [if_pos hs] at h
        cases h
        intro pr hpr
        rw [loaderPairs]
        subst hs
        exact List.mem_append_left _ hpr
      · rw [if_neg hs] at h
        intro pr hpr
        rw [loaderPairs]
        exact List.mem_append_right _ (lookupCfg_pairs_mem t s cfg h pr hpr)

theorem docOf_pair_mem (root : CfgDoc) (loader : List (String × CfgDoc))
    (src : Option String) (cfg : CfgDoc) (name : String) (p : ProfileDecl)
    (hdoc : docOf root loader src = some cfg)
    (hfind : findProfile cfg.profiles name = some p) :
    (src, name) ∈ allPairs root loader := by
  cases src with
  | none =>
      rw [docOf] at hdoc
      cases hdoc
      exact List.mem_append_left _ (findProfile_pair_mem none root.profiles name p hfind)
  | some s =>
      rw [docOf] at hdoc
      exact List.mem_append_right _
        (lookupCfg_pairs_mem loader s cfg hdoc (some s, name)
          (findProfile_pair_mem (some s) cfg.profiles name p hfind))

mutual

/-- Modelled from the spec: `resolve(profileName)` of the Profile Resolver
(spec 4.4): the cycle check comes first — a source/profile-name pair
already being resolved on the current call stack is a fatal
CyclicProfileError — then the profile is looked up in the designated
document (ProfileNotFound if absent), its parents are resolved recursively
and combined in order under the merge strategy to form the working base
(the document's own root when no parents are declared), and finally the
modification blocks are applied in the fixed stage order. -/
def resolveProfile (root : CfgDoc) (loader : List (String × CfgDoc))
    (stack : List (Option String × String)) (src : Option String) (name : String) :
    Except ResolveError Node :=
  if hcyc : memPair (src, name) stack then .error (.CyclicProfileError src name)
  else
    match hdoc : docOf root loader src with
    | none => .error (.SourceLoadError (src.getD ""))
    | some cfg =>
        match hfind : findProfile cfg.profiles name with
        | none => .error (.ProfileNotFound name)
        | some p =>
            match resolveParents root loader ((src, name) :: stack) src none p.parents with
            | .error e => .error e
            | .ok baseOpt =>
                match resolveStages profileKeyOf (baseOpt.getD cfg.root) p.blocks with
                | .ok d => .ok d
                | .error e => .error (.PatchFailed e)
termination_by (guardMeasure root loader stack, 0)
decreasing_by
  apply Prod.Lex.left
  exact guardMeasure_push_lt root loader stack (src, name)
    (docOf_pair_mem root loader src cfg name p hdoc hfind)
    (Bool.not_eq_true _ ▸ eq_false_of_ne_true hcyc)

/-- Modelled from the spec: resolution of a profile's parent list (spec 4.4
step 2): each parent entry in order designates a document (an external
source when named, the current document otherwise) and a profile to resolve
recursively; the resolved parent documents are combined in order under the
merge strategy, later parents overriding earlier ones. -/
def resolveParents (root : CfgDoc) (loader : List (String × CfgDoc))
    (stack : List (Option String × String)) (cur : Option String)
    (acc : Option Node) :
    List (Option String × String) → Except ResolveError (Option Node)
  | [] => .ok acc
  | par :: rest =>
      match resolveProfile root loader stack
          (match par.1 with
            | some s => some s
            | none => cur) par.2 with
      | .error e => .error e
      | .ok d =>
          resolveParents root loader stack cur
            (some
              (match acc with
                | none => d
                | some a => mergeNodes a d)) rest
termination_by ps => (guardMeasure root loader stack, ps.length + 1)
decreasing_by
  · exact Prod.Lex.right _ (Nat.succ_pos _)
  · exact Prod.Lex.right _ (Nat.lt_succ_self _)

end

/-- Configuration whose profile A names itself as parent: the direct cycle
A to A. -/
def cfgSelfParent : CfgDoc :=
  ⟨.null, [⟨"A", [(none, "A")], []⟩]⟩

/-- Configuration whose profile A has parent B and profile B has parent A:
the indirect cycle A to B to A. -/
def cfgIndirectCycle : CfgDoc :=
  ⟨.null, [⟨"A", [(none, "B")], []⟩, ⟨"B", [(none, "A")], []⟩]⟩

/-- C3: profile resolution is guarded against revisiting a source and
profile-name pair already being resolved on the current call stack: a
revisited pair terminates immediately with CyclicProfileError, and both the
direct chain A-A and the indirect chain A-B-A resolve to
CyclicProfileError; the resolver itself is a total function (its recursion
is well-founded on the unvisited part of the finite pair universe), so it
can neither loop forever nor overflow the stack undetected. -/
theorem resolveProfile_cycle_detection :
    (∀ (root : CfgDoc) (loader : List (String × CfgDoc))
        (stack : List (Option String × String)) (src : Option String) (name : String),
        memPair (src, name) stack = true →
        resolveProfile root loader stack src name =
          .error (.CyclicProfileError src name))
    ∧
    resolveProfile cfgSelfParent [] [] none "A" =
      .error (.CyclicProfileError none "A")
    ∧
    resolveProfile cfgIndirectCycle [] [] none "A" =
      .error (.CyclicProfileError none "A") := by
  refine ⟨?_, ?_, ?_⟩
  · intro root loader stack src name h
    rw [resolveProfile]
    rw [dif_pos h]
  · simp [resolveProfile, resolveParents, cfgSelfParent, memPair, docOf, findProfile,
      resolveStages, firstBlock, apply]
  · simp [resolveProfile, resolveParents, cfgIndirectCycle, memPair, docOf, findProfile,
      resolveStages, firstBlock, apply]

/-- Witness for the cycle-guard hypothesis of resolveProfile_cycle_detection
at a concrete stack already holding the pair being resolved. -/
theorem resolveProfile_cycle_detection_witness :
    memPair (none, "A") [(none, "A")] = true
    ∧
    resolveProfile cfgSelfParent [] [(none, "A")] none "A" =
      .error (.CyclicProfileError none "A") :=
  ⟨rfl, resolveProfile_cycle_detection.1 cfgSelfParent [] [(none, "A")] none "A" rfl⟩

/-- VariableSource is the type of a variable source (schema.go line 725):
a string taking the values "", "all", "env", "input" and "none". -/
def VariableSource := String

/-- The unspecified variable source (schema.go line 729). -/
def VariableSourceDefault : VariableSource := ""

/-- The `all` variable source (schema.go line 730). -/
def VariableSourceAll : VariableSource := "all"

/-- The `env` variable source (schema.go line 731). -/
def VariableSourceEnv : VariableSource := "env"

/-- The `input` variable source (schema.go line 732). -/
def VariableSourceInput : VariableSource := "input"

/-- The `none` variable source (schema.go line 733). -/
def VariableSourceNone : VariableSource := "none"

/-- Variable describes the var definition (schema.go lines 713-722); the Go
`Default interface\x7b\x7d` field is an optional document node. -/
structure Variable where
  Name : String
  Question : String
  Options : List String
  Password : Bool
  ValidationPattern : String
  ValidationMessage : String
  Default : Option Node
  Source : String

/-- Modelled from the spec: the external collaborators of the Variable
Resolver (spec 6): the process-environment accessor, the blocking Input
Provider and the validation-pattern matcher (regular-expression matching is
external to the model). -/
structure VarCtx where
  env : String → Option String
  input : Variable → Option String
  valid : String → String → Bool

/-- Modelled from the spec: the error kinds of variable resolution
(spec 7). -/
inductive VarError where
  | UndefinedVariableError (name : String)
  | ValidationError (name : String)

/-- Resolved-variable cache lookup (spec 3, "Resolved-Variable Cache"). -/
def lookupVar : List (String × Node) → String → Option Node
  | [], _ => none
  | (k, v) :: t, key => if k = key then some v else lookupVar t key

/-- Variable definition with a given name in the definition roster. -/
def findVarDef : List Variable → String → Option Variable
  | [], _ => none
  | d :: t, n => if d.Name = n then some d else findVarDef t n

/-- Modelled from the spec: one interactive-input attempt (spec 4.5): the
Input Provider's answer is checked against the validation pattern and the
enumerated options; a non-matching answer is a ValidationError, no answer
leaves the source silent. -/
def askInput (ctx : VarCtx) (d : Variable) : Except VarError (Option Node) :=
  match ctx.input d with
  | none => .ok none
  | some ans =>
      if ctx.valid d.ValidationPattern ans then
        if d.Options.isEmpty || d.Options.contains ans then .ok (some (.str ans))
        else .error (.ValidationError d.Name)
      else .error (.ValidationError d.Name)

/-- Modelled from the spec: resolution of one not-yet-cached name against
the precedence of sources given by its Variable Definition (spec 4.5,
resolution policy step 2): `none` requires a default, `env` reads the
environment falling back to the default, `input` asks the Input Provider,
and the default/`all` behaviour checks environment then input then default;
a name with no matching definition follows the default behaviour with no
default value. -/
def resolveFresh (ctx : VarCtx) (defs : List Variable) (name : String) :
    Except VarError Node :=
  match findVarDef defs name with
  | some d =>
      if d.Source = "none" then
        match d.Default with
        | some v => .ok v
        | none => .error (.UndefinedVariableError name)
      else if d.Source = "env" then
        match ctx.env name with
        | some s => .ok (.str s)
        | none =>
            match d.Default with
            | some v => .ok v
            | none => .error (.UndefinedVariableError name)
      else if d.Source = "input" then
        match askInput ctx d with
        | .ok (some v) => .ok v
        | .ok none =>
            match d.Default with
            | some v => .ok v
            | none => .error (.UndefinedVariableError name)
        | .error e => .error e
      else
        match ctx.env name with
        | some s => .ok (.str s)
        | none =>
            match askInput ctx d with
            | .ok (some v) => .ok v
            | .ok none =>
                match d.Default with
                | some v => .ok v
                | none => .error (.UndefinedVariableError name)
            | .error e => .error e
  | none =>
      match ctx.env name with
      | some s => .ok (.str s)
      | none =>
          match askInput ctx ⟨name, "", [], false, "", "", none, ""⟩ with
          | .ok (some v) => .ok v
          | .ok none => .error (.UndefinedVariableError name)
          | .error e => .error e

/-- Modelled from the spec: resolution of one name against the cache
(spec 4.5, resolution policy): a cached name is reused verbatim; otherwise
the name is resolved fresh and the value is stored under the name in the
cache before substitution. -/
def resolveVar (ctx : VarCtx) (defs : List Variable)
    (cache : List (String × Node)) (name : String) :
    Except VarError (Node × List (String × Node)) :=
  match lookupVar cache name with
  | some v => .ok (v, cache)
  | none =>
      match resolveFresh ctx defs name with
      | .ok v => .ok (v, (name, v) :: cache)
      | .error e => .error e

/-- C7: within one resolver run every variable name is resolved at most
once: a name present in the cache is returned verbatim with the cache
unchanged whatever the current environment holds, and once a resolution has
succeeded, resolving the same name again under an arbitrarily changed
context returns the identical cached value. -/
theorem resolver_cache_idempotent :
    (∀ (ctx : VarCtx) (defs : List Variable) (cache : List (String × Node))
        (name : String) (v : Node),
        lookupVar cache name = some v →
        resolveVar ctx defs cache name = .ok (v, cache))
    ∧
    (∀ (ctx1 ctx2 : VarCtx) (defs1 defs2 : List Variable)
        (cache : List (String × Node)) (name : String) (v : Node)
        (cache2 : List (String × Node)),
        resolveVar ctx1 defs1 cache name = .ok (v, cache2) →
        resolveVar ctx2 defs2 cache2 name = .ok (v, cache2)) := by
  constructor
  · intro ctx defs cache name v h
    rw [resolveVar, h]
  · intro ctx1 ctx2 defs1 defs2 cache name v cache2 h
    rw [resolveVar] at h
    cases hl : lookupVar cache name with
    | some w =>
        rw [hl] at h
        cases h
        rw [resolveVar, hl]
    | none =>
        rw [hl] at h
        cases hf : resolveFresh ctx1 defs1 name with
        | ok w =>
            rw [hf] at h
            cases h
            simp [resolveVar, lookupVar]
        | error e => rw [hf] at h; cases h

/-- Environment context in which the variable X is the string 1. -/
def envCtxFirst : VarCtx :=
  ⟨fun n => if n = "X" then some "1" else none, fun _ => none, fun _ _ => true⟩

/-- Environment context in which the variable X changed to the string 2
mid-run. -/
def envCtxChanged : VarCtx :=
  ⟨fun n => if n = "X" then some "2" else none, fun _ => none, fun _ _ => true⟩

/-- Witness for resolver_cache_idempotent: resolving X fills the cache from
the first environment, and resolving X again after the environment changed
still returns the first cached value with the cache unchanged. -/
theorem resolver_cache_idempotent_witness :
    resolveVar envCtxFirst [] [] "X" = .ok (.str "1", [("X", .str "1")])
    ∧
    resolveVar envCtxChanged [] [("X", .str "1")] "X" =
      .ok (.str "1", [("X", .str "1")]) :=
  ⟨rfl, resolver_cache_idempotent.2 envCtxFirst envCtxChanged [] [] [] "X"
    (.str "1") [("X", .str "1")] rfl⟩

mutual

/-- Modelled from the spec: the substitution walk of `fillVariables` and
`fillVariablesExclude` (spec 4.5): a new document in which every
placeholder occurrence in a scalar string leaf is substituted, except that
subtrees whose path is named by `excl` are left literal. -/
def fillNode (resolve : String → Option Node) (excl : List (List String))
    (path : List String) : Node → Node
  | .str s => substString resolve s
  | .num n => .num n
  | .bool b => .bool b
  | .null => .null
  | .seq xs => .seq (fillSeq resolve excl path 0 xs)
  | .map m => .map (fillEntries resolve excl path m)

/-- Modelled from the spec: the substitution walk over a sequence, indexing
children by position for path bookkeeping. -/
def fillSeq (resolve : String → Option Node) (excl : List (List String))
    (path : List String) (i : Nat) : NodeList → NodeList
  | .nil => .nil
  | .cons x t =>
      .cons
        (if (path ++ [toString i]) ∈ excl then x
         else fillNode resolve excl (path ++ [toString i]) x)
        (fillSeq resolve excl path (i + 1) t)

/-- Modelled from the spec: the substitution walk over a mapping's entries:
an entry whose path is excluded keeps its subtree verbatim, placeholders
included. -/
def fillEntries (resolve : String → Option Node) (excl : List (List String))
    (path : List String) : EntryList → EntryList
  | .nil => .nil
  | .cons k v t =>
      .cons k
        (if (path ++ [k]) ∈ excl then v
         else fillNode resolve excl (path ++ [k]) v)
        (fillEntries resolve excl path t)

end

/-- Modelled from the spec: `fillVariables(doc)` (spec 4.5, part_001 lines
26-27): substitutes every placeholder occurrence in the document. -/
def FillVariables (resolve : String → Option Node) (doc : Node) : Node :=
  fillNode resolve [] [] doc

/-- Modelled from the spec: `fillVariablesExclude(doc, excludedPaths)`
(spec 4.5, part_001 lines 29-30): substitutes placeholders that do not lie
under one of the excluded slash-delimited paths. -/
def FillVariablesExclude (resolve : String → Option Node) (doc : Node)
    (excluded : List String) : Node :=
  fillNode resolve (excluded.map splitPath) [] doc

theorem fillEntries_excluded_lookup
    (resolve : String → Option Node) (excl : List (List String))
    (path : List String) (k : String) :
    ∀ (m : EntryList), (path ++ [k]) ∈ excl →
      (fillEntries resolve excl path m).lookup k = m.lookup k
  | .nil, _ => rfl
  | .cons k1 v t, h => by
      rw [fillEntries, EntryList.entries_lookup_cons, EntryList.entries_lookup_cons]
      by_cases hk : k1 = k
      · subst hk
        rw [if_pos h]
        simp
      · simp [hk, fillEntries_excluded_lookup resolve excl path k t h]

/-- Resolution map holding the variable R with the numeric value 3. -/
def resolveNumR : String → Option Node :=
  fun n => if n = "R" then some (.num 3) else none

/-- C9: `fillVariablesExclude` leaves every subtree under an excluded path
literal: an excluded mapping entry's subtree is returned verbatim, the
`profiles` subtree survives `fillVariablesExclude(doc, [profiles])`
unchanged, and in a document referencing the same variable both inside and
outside the profiles subtree only the outside occurrence is substituted. -/
theorem fill_exclude_frame :
    (∀ (resolve : String → Option Node) (excl : List (List String))
        (path : List String) (k : String) (m : EntryList),
        (path ++ [k]) ∈ excl →
        (fillEntries resolve excl path m).lookup k = m.lookup k)
    ∧
    (∀ (resolve : String → Option Node) (m : EntryList),
        (FillVariablesExclude resolve (.map m) ["profiles"]).lookupKey "profiles" =
          m.lookup "profiles")
    ∧
    FillVariablesExclude resolveNumR
        (.map (.cons "replicas" (.str "${R}")
          (.cons "profiles" (.map (.cons "p" (.str "${R}") .nil)) .nil)))
        ["profiles"] =
      .map (.cons "replicas" (.num 3)
        (.cons "profiles" (.map (.cons "p" (.str "${R}") .nil)) .nil)) := by
  refine ⟨fillEntries_excluded_lookup, ?_, rfl⟩
  intro resolve m
  rw [show FillVariablesExclude resolve (.map m) ["profiles"] =
      .map (fillEntries resolve [["profiles"]] [] m) from rfl]
  rw [Node.lookupKey]
  exact fillEntries_excluded_lookup resolve [["profiles"]] [] "profiles" m
    (by simp)

/-- Witness for fill_exclude_frame: the excluded-path hypothesis discharged
at the concrete profiles entry of the example document. -/
theorem fill_exclude_frame_witness :
    (([] : List String) ++ ["profiles"]) ∈ [["profiles"]]
    ∧
    (fillEntries resolveNumR [["profiles"]] []
        (.cons "profiles" (.map (.cons "p" (.str "${R}") .nil)) .nil)).lookup
        "profiles" =
      (EntryList.cons "profiles" (.map (.cons "p" (.str "${R}") .nil)) .nil).lookup
        "profiles" :=
  ⟨by simp,
    fill_exclude_frame.1 resolveNumR [["profiles"]] [] "profiles"
      (.cons "profiles" (.map (.cons "p" (.str "${R}") .nil)) .nil) (by simp)⟩

/-!
Embedding of the typed configuration schema (schema.go).  Go pointers become
Option, Go maps become Option of an ordered association list (a nil map is
distinguishable from an empty one), Go slices become List, and the generic
`map[interface\x7b\x7d]interface\x7b\x7d` payloads become document nodes.
-/

/-- Version is the current api version (schema.go line 8). -/
def Version : String := "v1beta9"

/-- BuildOptions defines options for building Docker images (schema.go lines
261-265). -/
structure BuildOptions where
  Target : String
  Network : String
  BuildArgs : Option (List (String × Option String))

/-- DockerConfig tells the CLI to build with Docker on Minikube or on
localhost (schema.go lines 110-117). -/
structure DockerConfig where
  PreferMinikube : Option Bool
  SkipPush : Option Bool
  DisableFallback : Option Bool
  UseBuildKit : Option Bool
  Args : List String
  Options : Option BuildOptions

/-- KanikoAdditionalMountKeyToPath (schema.go lines 233-249). -/
structure KanikoAdditionalMountKeyToPath where
  Key : String
  Path : String
  Mode : Option Int

/-- KanikoAdditionalMountSecret (schema.go lines 208-231). -/
structure KanikoAdditionalMountSecret where
  Name : String
  Items : List KanikoAdditionalMountKeyToPath
  DefaultMode : Option Int

/-- KanikoAdditionalMountConfigMap (schema.go lines 184-206). -/
structure KanikoAdditionalMountConfigMap where
  Name : String
  Items : List KanikoAdditionalMountKeyToPath
  DefaultMode : Option Int

/-- KanikoAdditionalMount tells devspace how the additional mount of the
kaniko pod should look like (schema.go lines 162-182). -/
structure KanikoAdditionalMount where
  Secret : Option KanikoAdditionalMountSecret
  ConfigMap : Option KanikoAdditionalMountConfigMap
  ReadOnly : Bool
  MountPath : String
  SubPath : String

/-- KanikoPodResources describes the resources section of the started
kaniko pod (schema.go lines 153-159). -/
structure KanikoPodResources where
  Requests : Option (List (String × String))
  Limits : Option (List (String × String))

/-- KanikoConfig tells the CLI to build with kaniko in-cluster (schema.go
lines 120-150). -/
structure KanikoConfig where
  Cache : Option Bool
  SnapshotMode : String
  Image : String
  Args : List String
  Namespace : String
  Insecure : Option Bool
  PullSecret : String
  AdditionalMounts : List KanikoAdditionalMount
  Resources : Option KanikoPodResources
  Options : Option BuildOptions

/-- CustomConfig tells the CLI to build with a custom build script
(schema.go lines 252-258). -/
structure CustomConfig where
  Command : String
  AppendArgs : List String
  Args : List String
  ImageFlag : String
  OnChange : List String

/-- BuildConfig defines the build process for an image (schema.go lines
93-107). -/
structure BuildConfig where
  Docker : Option DockerConfig
  Kaniko : Option KanikoConfig
  Custom : Option CustomConfig
  Disabled : Option Bool

/-- ImageConfig defines the image specification (schema.go lines 45-89). -/
structure ImageConfig where
  Image : String
  Tags : List String
  Dockerfile : String
  Context : String
  Entrypoint : List String
  Cmd : List String
  CreatePullSecret : Option Bool
  PreferSyncOverRebuild : Bool
  InjectRestartHelper : Bool
  AppendDockerfileInstructions : List String
  Build : Option BuildConfig

/-- ChartConfig defines the helm chart options (schema.go lines 475-481). -/
structure ChartConfig where
  Name : String
  Version : String
  RepoURL : String
  Username : String
  Password : String

/-- HelmConfig defines the specific helm options used during deployment
(schema.go lines 450-472). -/
structure HelmConfig where
  Chart : Option ChartConfig
  ComponentChart : Option Bool
  Values : Option Node
  ValuesFiles : List String
  ReplaceImageTags : Option Bool
  Wait : Bool
  Timeout : Option Int
  Force : Bool
  Atomic : Bool
  CleanupOnFail : Bool
  Recreate : Bool
  DisableHooks : Bool
  Driver : String
  Path : String
  V2 : Bool
  TillerNamespace : String
  DeleteArgs : List String
  TemplateArgs : List String
  UpgradeArgs : List String
  FetchArgs : List String

/-- KubectlConfig defines the specific kubectl options used during
deployment (schema.go lines 484-493). -/
structure KubectlConfig where
  Manifests : List String
  Kustomize : Option Bool
  KustomizeArgs : List String
  ReplaceImageTags : Option Bool
  DeleteArgs : List String
  CreateArgs : List String
  ApplyArgs : List String
  CmdPath : String

/-- DeploymentConfig defines the configuration how the devspace should be
deployed (schema.go lines 268-273). -/
structure DeploymentConfig where
  Name : String
  Namespace : String
  Helm : Option HelmConfig
  Kubectl : Option KubectlConfig

/-- PortMapping defines the ports for a PortMapping (schema.go lines
516-520). -/
structure PortMapping where
  LocalPort : Option Int
  RemotePort : Option Int
  BindAddress : String

/-- PortForwardingConfig defines the ports for a port forwarding to a
DevSpace (schema.go lines 506-513). -/
structure PortForwardingConfig where
  ImageName : String
  LabelSelector : Option (List (String × String))
  ContainerName : String
  Namespace : String
  PortMappings : List PortMapping
  PortMappingsReverse : List PortMapping

/-- OpenConfig defines what to open after services have been started
(schema.go lines 523-525). -/
structure OpenConfig where
  URL : String

/-- SyncCommand holds a command definition (schema.go lines 591-594). -/
structure SyncCommand where
  Command : String
  Args : List String

/-- SyncExecCommand holds the configuration of commands that should be
executed when files or folders change (schema.go lines 572-588). -/
structure SyncExecCommand where
  Command : String
  Args : List String
  OnFileChange : Option SyncCommand
  OnDirCreate : Option SyncCommand
  OnBatch : Option SyncCommand

/-- SyncOnUpload defines the command that should be executed when files or
folders are uploaded (schema.go lines 555-564). -/
structure SyncOnUpload where
  RestartContainer : Bool
  ExecRemote : Option SyncExecCommand

/-- SyncOnDownload defines the command that should be executed when files or
folders are downloaded (schema.go lines 567-569). -/
structure SyncOnDownload where
  ExecLocal : Option SyncExecCommand

/-- BandwidthLimits defines the sync bandwidth limits (schema.go lines
619-622). -/
structure BandwidthLimits where
  Download : Option Int
  Upload : Option Int

/-- SyncConfig defines the paths for a SyncFolder (schema.go lines
528-552); InitialSyncStrategy and InitialSyncCompareBy are string types
(schema.go lines 597 and 610). -/
structure SyncConfig where
  ImageName : String
  LabelSelector : Option (List (String × String))
  ContainerName : String
  Namespace : String
  LocalSubPath : String
  ContainerPath : String
  ExcludePaths : List String
  DownloadExcludePaths : List String
  UploadExcludePaths : List String
  InitialSync : String
  InitialSyncCompareBy : String
  DisableDownload : Option Bool
  DisableUpload : Option Bool
  WaitInitialSync : Option Bool
  BandwidthLimits : Option BandwidthLimits
  ThrottleChangeDetection : Option Int
  OnUpload : Option SyncOnUpload
  OnDownload : Option SyncOnDownload

/-- LogsConfig specifies the logs options for devspace dev (schema.go lines
625-629). -/
structure LogsConfig where
  Disabled : Option Bool
  ShowLast : Option Int
  Images : List String

/-- AutoReloadConfig defines the struct for auto reloading devspace with
additional paths (schema.go lines 632-636). -/
structure AutoReloadConfig where
  Paths : List String
  Deployments : List String
  Images : List String

/-- InteractiveImageConfig describes the interactive mode options for an
image (schema.go lines 646-650). -/
structure InteractiveImageConfig where
  Name : String
  Entrypoint : List String
  Cmd : List String

/-- TerminalConfig describes the terminal options (schema.go lines
653-659). -/
structure TerminalConfig where
  ImageName : String
  LabelSelector : Option (List (String × String))
  ContainerName : String
  Namespace : String
  Command : List String

/-- InteractiveConfig defines the default interactive config (schema.go
lines 639-643). -/
structure InteractiveConfig where
  DefaultEnabled : Option Bool
  Images : List InteractiveImageConfig
  Terminal : Option TerminalConfig

/-- DevConfig defines the devspace deployment (schema.go lines 496-503). -/
structure DevConfig where
  Ports : List PortForwardingConfig
  Open : List OpenConfig
  Sync : List SyncConfig
  Logs : Option LogsConfig
  AutoReload : Option AutoReloadConfig
  Interactive : Option InteractiveConfig

/-- SourceConfig defines the dependency source (schema.go lines 672-683). -/
structure SourceConfig where
  Git : String
  CloneArgs : List String
  DisableShallow : Bool
  SubPath : String
  Branch : String
  Tag : String
  Revision : String
  ConfigName : String
  Path : String

/-- DependencyConfig defines the devspace dependency (schema.go lines
662-669). -/
structure DependencyConfig where
  Name : String
  Source : Option SourceConfig
  Profile : String
  SkipBuild : Option Bool
  IgnoreDependencies : Option Bool
  Namespace : String

/-- HookWhenAtConfig defines at which stage the hook should be executed
(schema.go lines 700-703). -/
structure HookWhenAtConfig where
  Images : String
  Deployments : String

/-- HookWhenConfig defines when the hook should be executed (schema.go
lines 694-697). -/
structure HookWhenConfig where
  Before : Option HookWhenAtConfig
  After : Option HookWhenAtConfig

/-- HookConfig defines a hook (schema.go lines 686-691). -/
structure HookConfig where
  Command : String
  Args : List String
  When : Option HookWhenConfig

/-- CommandConfig defines the command specification (schema.go lines
706-710). -/
structure CommandConfig where
  Name : String
  Command : String
  Description : String

/-- ProfileParent defines where to load the profile from (schema.go lines
747-751). -/
structure ProfileParent where
  Source : Option SourceConfig
  Profile : String

/-- ReplaceConfig defines a replace config that can override certain parts
of the config completely (schema.go lines 761-768). -/
structure ReplaceConfig where
  Images : Option (List (String × ImageConfig))
  Deployments : List DeploymentConfig
  Dev : Option DevConfig
  Dependencies : List DependencyConfig
  Hooks : List HookConfig

/-- ProfileConfig defines a profile config (schema.go lines 736-745). -/
structure ProfileConfig where
  Name : String
  Parent : String
  Parents : List ProfileParent
  Patches : List PatchConfig
  Replace : Option ReplaceConfig
  Merge : Option Node
  StrategicMerge : Option Node

/-- Config defines the configuration (schema.go lines 30-42). -/
structure Config where
  Version : String
  Images : Option (List (String × ImageConfig))
  Deployments : List DeploymentConfig
  Dev : Option DevConfig
  Dependencies : List DependencyConfig
  Hooks : List HookConfig
  Commands : List CommandConfig
  Vars : List Variable
  Profiles : List ProfileConfig

/-- GetVersion returns the version (schema.go lines 11-13): the package
constant, whatever the Version field holds. -/
def Config.GetVersion (_ : Config) : String := DevSpace.Version

/-- NewRaw creates a new config object (schema.go lines 21-27): the current
version, a fresh empty Dev section and a fresh empty Images map; every
other field keeps its zero value. -/
def NewRaw : Config where
  Version := DevSpace.Version
  Images := some []
  Deployments := []
  Dev := some ⟨[], [], [], none, none, none⟩
  Dependencies := []
  Hooks := []
  Commands := []
  Vars := []
  Profiles := []

/-- New creates a new config object (schema.go lines 16-18): it returns
NewRaw's result. -/
def New : Config := NewRaw

/-- C10: every Config produced by New or NewRaw has Version equal to the
constant v1beta9, a non-nil empty Dev section and a non-nil empty Images
map, and GetVersion returns the constant v1beta9 for every Config value,
ignoring the string held by its Version field. -/
theorem new_config_defaults :
    NewRaw.Version = "v1beta9"
    ∧ NewRaw.Dev = some ⟨[], [], [], none, none, none⟩
    ∧ NewRaw.Images = some []
    ∧ New = NewRaw
    ∧ (∀ c : Config, c.GetVersion = "v1beta9")
    ∧ Version = "v1beta9" :=
  ⟨rfl, rfl, rfl, rfl, fun _ => rfl, rfl⟩

/-- Resolution map holding the variable REPLICAS with the numeric value 3. -/
def resolveRepl : String → Option Node :=
  fun n => if n = "REPLICAS" then some (.num 3) else none

/-- Witness for subst_placeholder_semantics: with REPLICAS resolved to the
number 3, the full-placeholder scalar yields the numeric leaf 3 and the
embedded placeholder yields the string replicas-3. -/
theorem subst_placeholder_semantics_witness :
    resolveRepl "REPLICAS" = some (.num 3)
    ∧ '}' ∉ ("REPLICAS" : String).data
    ∧ substString resolveRepl "${REPLICAS}" = .num 3
    ∧ substString resolveRepl "replicas-${REPLICAS}" = .str "replicas-3" :=
  ⟨rfl, by decide,
    by
      have h := subst_placeholder_semantics.1 resolveRepl "REPLICAS" (.num 3)
        (by decide) rfl
      simpa using h,
    by
      have h := subst_placeholder_semantics.2 resolveRepl "replicas-" "REPLICAS" ""
        (.num 3) (by decide) (by decide) (by decide) (Or.inl (by decide)) rfl
      simpa using h⟩

/-- Witness for merge_strategy_semantics: at the scalar pair 1 and 2 one
side is not a mapping, so the override value 2 wins outright. -/
theorem merge_strategy_semantics_witness :
    ((Node.num 1).isMap = false ∨ (Node.num 2).isMap = false)
    ∧ mergeNodes (.num 1) (.num 2) = .num 2 :=
  ⟨Or.inl rfl, merge_strategy_semantics.2.1 (.num 1) (.num 2) (Or.inl rfl)⟩

/-- Witness for strategic_merge_semantics: a singleton base sequence with no
override match keeps its element in position 0. -/
theorem strategic_merge_semantics_witness :
    (NodeList.cons (.map (.cons "name" (.str "a") .nil)) .nil).get 0 =
      some (.map (.cons "name" (.str "a") .nil))
    ∧ (stratSeq profileKeyOf "name"
        (.cons (.map (.cons "name" (.str "a") .nil)) .nil) .nil).get 0 =
      some (.map (.cons "name" (.str "a") .nil)) :=
  ⟨rfl,
    strategic_merge_semantics.1 profileKeyOf "name"
      (.cons (.map (.cons "name" (.str "a") .nil)) .nil) .nil 0
      (.map (.cons "name" (.str "a") .nil)) rfl⟩

/-- Witness for merge_total_conflict_free: a key present in the override
mapping wins verbatim under the replace strategy. -/
theorem merge_total_conflict_free_witness :
    (EntryList.cons "a" Node.null .nil).lookup "a" = some .null
    ∧ (replaceNodes (.map .nil) (.map (.cons "a" .null .nil))).lookupKey "a" =
      some .null :=
  ⟨rfl,
    merge_total_conflict_free.1 .nil (.cons "a" .null .nil) "a" .null rfl⟩

/-- Witness for resolveStages_decl_order_irrelevant: a merge block and a
patches block swap declaration order without changing the result. -/
theorem resolveStages_decl_order_irrelevant_witness :
    ([ProfileBlock.patches [], ProfileBlock.merge .null].Perm
      [ProfileBlock.merge .null, ProfileBlock.patches []])
    ∧ resolveStages profileKeyOf .null
        [ProfileBlock.patches [], ProfileBlock.merge .null] =
      resolveStages profileKeyOf .null
        [ProfileBlock.merge .null, ProfileBlock.patches []] :=
  ⟨List.Perm.swap (ProfileBlock.merge .null) (ProfileBlock.patches []) [],
    resolveStages_decl_order_irrelevant profileKeyOf .null
      [ProfileBlock.patches [], ProfileBlock.merge .null]
      [ProfileBlock.merge .null, ProfileBlock.patches []]
      (List.Perm.swap (ProfileBlock.merge .null) (ProfileBlock.patches []) [])
      (by decide) (by decide) (by decide) (by decide)⟩

end DevSpace
